import Mathlib

/-!
Verification of the Convex-export → PostgreSQL converter
(`src/convex_to_postgres/converter.py`).

The Python source is shallowly embedded below.  Conventions of the embedding:

* Python `str` is Lean `String` / `List Char`.  The regex character classes
  `[A-Z]`, `[a-z]`, `[0-9]`, `[\w]`, `\s` are modelled as the corresponding
  ASCII character tests (the only names the converter manipulates are ASCII;
  `str.lower()` is likewise modelled for its ASCII action).
* Python `float` is modelled as `Rat`, covering every finite IEEE-754 double
  exactly; the comparison `value > 1e12` and the truncation `int(value)`
  are implemented on `num`/`den` so that they agree with Python on every
  representable value.  `repr(float)` (only used for non-timestamp float
  literals, which no statement below inspects) is abstracted by `toString`.
* JSON values parsed by `json.loads` become the inductive `PyVal`
  (None / bool / int / float / str / list / dict).
* File contents are passed in explicitly: a `documents.jsonl` file is a list
  of physical lines, each one either blank after `strip()`, a line whose
  JSON parse succeeds (carrying the parsed object), or a line whose JSON
  parse raises; a `generated_schema.jsonl` file is `none` (absent),
  `some none` (present but reading/outer-JSON-decoding fails) or
  `some (some inner)` (decodes to the inner schema text).
* A raised Python exception is `Except.error ()`.
-/

namespace ConvexToPg

/-! ### ASCII character classes used by the regexes -/

def isAsciiUpper (c : Char) : Bool := 65 ≤ c.toNat && c.toNat ≤ 90

def isAsciiLower (c : Char) : Bool := 97 ≤ c.toNat && c.toNat ≤ 122

def isAsciiDigit (c : Char) : Bool := 48 ≤ c.toNat && c.toNat ≤ 57

def isAlnumCh (c : Char) : Bool := isAsciiUpper c || isAsciiLower c || isAsciiDigit c

def isWordCh (c : Char) : Bool := isAlnumCh c || c = '_'

def isSpaceCh (c : Char) : Bool :=
  c = ' ' || c = '\t' || c = '\n' || c = '\r' || c = '\x0b' || c = '\x0c'

/-- Python `str.lower()`, modelled on its ASCII action. -/
def toLowerChar (c : Char) : Char :=
  if isAsciiUpper c then Char.ofNat (c.toNat + 32) else c

/-! ### List-of-char string helpers -/

def isPrefixOfCh (needle hay : List Char) : Bool :=
  match needle, hay with
  | [], _ => true
  | _ :: _, [] => false
  | x :: xs, y :: ys => x = y && isPrefixOfCh xs ys

/-- Python's `needle in hay` substring test. -/
def hasSubCh (needle : List Char) : List Char → Bool
  | [] => isPrefixOfCh needle []
  | hay@(_ :: t) => isPrefixOfCh needle hay || hasSubCh needle t

/-- Python's `hay.endswith(suffix)`. -/
def endsWithCh (hay suffix : List Char) : Bool :=
  isPrefixOfCh suffix.reverse hay.reverse

/-! ### Python values (results of `json.loads`) -/

inductive PyVal where
  | none
  | bool (b : Bool)
  | int (n : Int)
  | float (q : Rat)
  | str (s : String)
  | list (xs : List PyVal)
  | dict (kvs : List (String × PyVal))

/-- Python float comparison `a > b`, on the rational values. -/
def pyGt (a b : Rat) : Bool := decide (a.num * (b.den : Int) > b.num * (a.den : Int))

/-- Python `int(f)` on a float: truncation toward zero. -/
def pyTrunc (q : Rat) : Int := Int.tdiv q.num (q.den : Int)


/-! ### `camel_to_snake`

The source:
```
def camel_to_snake(name: str) -> str:
    s = re.sub(r"(.)([A-Z][a-z]+)", r"\1_\2", name)
    return re.sub(r"([a-z0-9])([A-Z])", r"\1_\2", s).lower()
```
`re.sub` scans left to right, trying a match at every position, replacing
non-overlapping matches and resuming after each match.  `sub1F` implements
the first substitution ( `.` does not match a newline; `[a-z]+` is greedy),
`sub2` the second.  `sub1F` carries explicit fuel so that it is structurally
recursive; `camel_to_snake` instantiates the fuel with the string length,
which the lemma `sub1F_eq_sub1` shows is always sufficient. -/

/-- Longest `[a-z]*` run at the head, and the remainder. -/
def takeLowerRun : List Char → List Char × List Char
  | [] => ([], [])
  | c :: cs =>
    if isAsciiLower c then
      let p := takeLowerRun cs
      (c :: p.1, p.2)
    else ([], c :: cs)


def sub1F (fuel : Nat) (l : List Char) : List Char :=
  match fuel, l with
  | 0, l => l
  | _, [] => []
  | _, [c] => [c]
  | _, [c, u] => [c, u]
  | f + 1, c :: u :: d :: rest =>
    if c ≠ '\n' && isAsciiUpper u && isAsciiLower d then
      c :: '_' :: u :: ((takeLowerRun (d :: rest)).1 ++ sub1F f (takeLowerRun (d :: rest)).2)
    else
      c :: sub1F f (u :: d :: rest)

def sub1 (l : List Char) : List Char := sub1F l.length l

def sub2 : List Char → List Char
  | [] => []
  | [c] => [c]
  | c :: u :: rest =>
    if (isAsciiLower c || isAsciiDigit c) && isAsciiUpper u then
      c :: '_' :: u :: sub2 rest
    else
      c :: sub2 (u :: rest)

def camel_to_snake (name : String) : String :=
  String.mk ((sub2 (sub1 name.data)).map toLowerChar)




/-! ### Identifier and timestamp heuristics -/

/-- The `TIMESTAMP_HINTS` tuple. -/
def TIMESTAMP_HINTS : List String := ["_at", "_time", "expires", "timestamp"]

/-- The pattern `_CONVEX_ID_RE = re.compile(r"^[a-zA-Z0-9]{20,}$")`; `is_convex_id` uses
`re.match`, so the pattern is anchored at the start, and `$` matches either at
the end of the string or just before a trailing newline. -/
def is_convex_id (value : String) : Bool :=
  (decide (value.data.length ≥ 20) && value.data.all isAlnumCh) ||
  (match value.data.getLast? with
   | some c =>
     c = '\n' && decide (value.data.dropLast.length ≥ 20) && value.data.dropLast.all isAlnumCh
   | Option.none => false)

def is_timestamp_field (snake_name : String) : Bool :=
  TIMESTAMP_HINTS.any (fun h => hasSubCh h.data snake_name.data)

/-- The function `infer_pg_type`: infer PostgreSQL column type from a live Python value.
Python tests `isinstance(value, bool)` before `int` (bool is an int subclass);
the constructors here are disjoint so the match order is equivalent. -/
def infer_pg_type (field_name : String) (value : PyVal) : String :=
  match value with
  | .bool _ => "BOOLEAN"
  | .int _ => "BIGINT"
  | .float q => if pyGt q 1000000000000 then "BIGINT" else "DOUBLE PRECISION"
  | .str s =>
    if field_name == "_id" || (endsWithCh field_name.data ['I', 'd'] && is_convex_id s) then
      "VARCHAR(50)"
    else "TEXT"
  | .list _ => "JSONB"
  | .dict _ => "JSONB"
  | .none => "TEXT"

/-! ### Decimal rendering of Python ints (`str(n)`) -/

def digitCh (n : Nat) : Char := Char.ofNat (48 + n)

def natToCharsAux (fuel n : Nat) : List Char :=
  match fuel with
  | 0 => []
  | f + 1 => if n < 10 then [digitCh n] else natToCharsAux f (n / 10) ++ [digitCh (n % 10)]

def natToChars (n : Nat) : List Char := natToCharsAux (n + 1) n

/-- Python `str(n)` for an int. -/
def intToChars (n : Int) : List Char :=
  if n < 0 then '-' :: natToChars n.natAbs else natToChars n.toNat

/-! ### SQL literal encoding (`escape_value`) -/

/-- The single-quote character. -/
def sqCh : Char := '\x27'

/-- Quote doubling, `value.replace` with a single-character pattern: double every
single quote (the replace pattern is a single character, so Python's
left-to-right non-overlapping replacement acts character by character). -/
def escQuote : List Char → List Char
  | [] => []
  | c :: cs => if c = sqCh then sqCh :: sqCh :: escQuote cs else c :: escQuote cs

/-- Python `json.dumps` with default separators, modelled for its ASCII action
(string escaping is modelled for quote/backslash/newline/tab/CR; `\uXXXX`
escapes of other control and non-ASCII characters are not reproduced — no
statement below inspects this output). -/
def jsonEscCh (c : Char) : List Char :=
  if c = '"' then ['\\', '"']
  else if c = '\\' then ['\\', '\\']
  else if c = '\n' then ['\\', 'n']
  else if c = '\t' then ['\\', 't']
  else if c = '\r' then ['\\', 'r']
  else [c]

/-- Python `repr(float)` is abstracted: no statement below inspects non-timestamp
float literals. -/
def floatRepr (q : Rat) : List Char := (toString q).data

mutual

def jsonDumps : PyVal → List Char
  | .none => "null".data
  | .bool true => "true".data
  | .bool false => "false".data
  | .int n => intToChars n
  | .float q => floatRepr q
  | .str s => '"' :: (s.data.flatMap jsonEscCh ++ ['"'])
  | .list xs => '[' :: (jsonDumpsList xs ++ [']'])
  | .dict kvs => '\x7b' :: (jsonDumpsObj kvs ++ ['\x7d'])

def jsonDumpsList : List PyVal → List Char
  | [] => []
  | [v] => jsonDumps v
  | v :: vs => jsonDumps v ++ [',', ' '] ++ jsonDumpsList vs

def jsonDumpsObj : List (String × PyVal) → List Char
  | [] => []
  | [(k, v)] => '"' :: (k.data.flatMap jsonEscCh ++ ['"', ':', ' ']) ++ jsonDumps v
  | (k, v) :: kvs =>
    '"' :: (k.data.flatMap jsonEscCh ++ ['"', ':', ' ']) ++ jsonDumps v ++ [',', ' ']
      ++ jsonDumpsObj kvs

end

/-- The function `escape_value`: return a SQL-safe literal. -/
def escape_value (snake_name : String) (value : PyVal) : String :=
  match value with
  | .none => "NULL"
  | .bool b => if b then "TRUE" else "FALSE"
  | .float q =>
    if is_timestamp_field snake_name || pyGt q 1000000000000 then
      String.mk (intToChars (pyTrunc q))
    else String.mk (floatRepr q)
  | .int n => String.mk (intToChars n)
  | .str s => String.mk (sqCh :: (escQuote s.data ++ [sqCh]))
  | .list xs => String.mk (sqCh :: (escQuote (jsonDumps (.list xs)) ++ [sqCh]))
  | .dict kvs => String.mk (sqCh :: (escQuote (jsonDumps (.dict kvs)) ++ [sqCh]))

/-! ### Schema-description parsing (`_parse_convex_schema`)

The inner text is scanned with
`re.finditer(r'"([^"]+)"\s*:\s*(?:"([^"]*)"|([\w]+))', inner)`:
at each position a match of `"name" : "example"` or `"name" : token` is
attempted (whitespace allowed around the colon, the quoted alternative
preferred); on failure the scan advances one character, on success it resumes
after the match.  `findPairsF` carries fuel (instantiated with the text
length, which bounds the number of scan steps). -/

inductive SchemaTok where
  | quoted (v : List Char)
  | token (w : List Char)

/-- Characters before the next `"`, and the rest after it ( `none` if no
closing quote exists). -/
def takeUntilQuote : List Char → Option (List Char × List Char)
  | [] => Option.none
  | c :: cs =>
    if c = '"' then some ([], cs)
    else (takeUntilQuote cs).map (fun p => (c :: p.1, p.2))

def dropSpaces : List Char → List Char
  | [] => []
  | c :: cs => if isSpaceCh c then dropSpaces cs else c :: cs

def takeWordRun : List Char → List Char × List Char
  | [] => ([], [])
  | c :: cs =>
    if isWordCh c then
      let p := takeWordRun cs
      (c :: p.1, p.2)
    else ([], c :: cs)

/-- Attempt the regex match at the head of `l`; on success return the
captured pair and the remainder after the match. -/
def matchPair (l : List Char) : Option ((List Char × SchemaTok) × List Char) :=
  match l with
  | '"' :: rest =>
    match takeUntilQuote rest with
    | some (name, rest1) =>
      if name.isEmpty then Option.none
      else
        match dropSpaces rest1 with
        | ':' :: rest3 =>
          match dropSpaces rest3 with
          | '"' :: rest5 =>
            (takeUntilQuote rest5).map (fun p => ((name, SchemaTok.quoted p.1), p.2))
          | rest4 =>
            let p := takeWordRun rest4
            if p.1.isEmpty then Option.none else some ((name, SchemaTok.token p.1), p.2)
        | _ => Option.none
    | Option.none => Option.none
  | _ => Option.none

def findPairsF (fuel : Nat) (l : List Char) : List (List Char × SchemaTok) :=
  match fuel with
  | 0 => []
  | f + 1 =>
    match l with
    | [] => []
    | _ :: t =>
      match matchPair l with
      | some (p, rest) => p :: findPairsF f rest
      | Option.none => findPairsF f t

def findPairs (l : List Char) : List (List Char × SchemaTok) := findPairsF l.length l

/-- The table `CONVEX_TYPE_MAP`, in source order. -/
def CONVEX_TYPE_MAP : List (String × String) :=
  [("normalfloat64", "DOUBLE PRECISION"),
   ("normalint64", "BIGINT"),
   ("int64", "BIGINT"),
   ("field_name", "TEXT"),
   ("boolean", "BOOLEAN"),
   ("string", "TEXT"),
   ("bytes", "BYTEA"),
   ("any", "JSONB"),
   ("array", "JSONB"),
   ("object", "JSONB"),
   ("null", "TEXT")]

/-- Python `m.get(k, dflt)` on an association list. -/
def mapGetD (m : List (String × String)) (k : String) (dflt : String) : String :=
  match m.find? (fun p => p.1 == k) with
  | some p => p.2
  | Option.none => dflt

/-- Dict update with Python semantics: an existing key keeps its
position and gets the new value; a new key is appended. -/
def dictInsert (m : List (String × String)) (k v : String) : List (String × String) :=
  if m.any (fun p => p.1 == k) then
    m.map (fun p => if p.1 == k then (k, v) else p)
  else m ++ [(k, v)]

/-- Resolution of one captured pair: a bare token goes through
`CONVEX_TYPE_MAP` (default `TEXT`); a quoted example yields `VARCHAR(50)`
when non-empty and identifier-like, else `TEXT`. -/
def resolveSchemaVal : SchemaTok → String
  | .token w => mapGetD CONVEX_TYPE_MAP (String.mk w) "TEXT"
  | .quoted v => if (!v.isEmpty) && is_convex_id (String.mk v) then "VARCHAR(50)" else "TEXT"

/-- The function `_parse_convex_schema`.  The argument is the decode outcome of the file:
`none` when anything in `read_text` / `json.loads` / treating the result as
a string fails (the `except Exception: return {}` path), `some inner` when
the file decodes to the inner schema text. -/
def _parse_convex_schema (decoded : Option String) : List (String × String) :=
  match decoded with
  | Option.none => []
  | some inner =>
    (findPairs inner.data).foldl
      (fun fields p => dictInsert fields (String.mk p.1) (resolveSchemaVal p.2)) []

/-! ### Document streams -/

/-- One physical line of `documents.jsonl`, classified by `line.strip()`
and `json.loads`: blank after stripping, a successfully parsed JSON object,
or a line whose parse raises. -/
inductive Line where
  | blank
  | doc (d : List (String × PyVal))
  | bad

def PyVal.isNone : PyVal → Bool
  | .none => true
  | _ => false

/-- The inner loop of `_infer_schema_from_docs`:
`for k, v in doc.items(): if k not in fields and v is not None: fields[k] = infer_pg_type(k, v)`. -/
def inferDoc (fields : List (String × String)) : List (String × PyVal) → List (String × String)
  | [] => fields
  | (k, v) :: items =>
    inferDoc
      (if fields.any (fun p => p.1 == k) || v.isNone then fields
       else fields ++ [(k, infer_pg_type k v)])
      items

def inferGo (fields : List (String × String)) : List Line → Except Unit (List (String × String))
  | [] => .ok fields
  | Line.blank :: rest => inferGo fields rest
  | Line.bad :: _ => .error ()
  | Line.doc d :: rest => inferGo (inferDoc fields d) rest

/-- The function `_infer_schema_from_docs`: scan documents to infer column types; a line
that fails to parse raises. -/
def _infer_schema_from_docs (lines : List Line) : Except Unit (List (String × String)) :=
  inferGo [] lines

/-- The document-loading loop of `convert_table` (blank lines skipped, a
parse failure raises). -/
def loadDocs : List Line → Except Unit (List (List (String × PyVal)))
  | [] => .ok []
  | Line.blank :: rest => loadDocs rest
  | Line.bad :: _ => .error ()
  | Line.doc d :: rest =>
    match loadDocs rest with
    | .ok ds => .ok (d :: ds)
    | .error e => .error e

/-! ### Table conversion -/

/-- A table directory: `documents.jsonl` (`none` when absent) and
`generated_schema.jsonl` (`none` absent, `some none` present but failing to
decode, `some (some inner)` decoding to `inner`). -/
structure TableDir where
  docs : Option (List Line)
  schema : Option (Option String)

structure TableResult where
  name : String
  schema_sql : String
  data_sql : String
  row_count : Nat
  deriving DecidableEq

/-- The type-resolution step of `convert_table`: parse the schema file when
present; when that yields nothing, fall back to sampling the documents. -/
def resolvePgTypes (schema : Option (Option String)) (lines : List Line) :
    Except Unit (List (String × String)) :=
  let fromSchema :=
    match schema with
    | some decoded => _parse_convex_schema decoded
    | Option.none => []
  if fromSchema.isEmpty then _infer_schema_from_docs lines else .ok fromSchema

/-- One resolved column: original field name, snake-case column name, column
type, and whether that column is rendered with `PRIMARY KEY`. -/
structure Col where
  orig : String
  snake : String
  ty : String
  primaryKey : Bool
  deriving DecidableEq

/-- The per-field branch of the column-building loop of `convert_table`. -/
def resolveCol (orig : String) (pg_type : String) : Col :=
  if orig == "_id" then ⟨orig, "id", "VARCHAR(50)", true⟩
  else if orig == "_creationTime" then ⟨orig, "creation_time", "BIGINT", false⟩
  else
    let snake := camel_to_snake orig
    ⟨orig, snake, if is_timestamp_field snake then "BIGINT" else pg_type, false⟩

def buildCols (pg_types : List (String × String)) : List Col :=
  pg_types.map (fun p => resolveCol p.1 p.2)

def renderColDef (c : Col) : String :=
  "  " ++ c.snake ++ " " ++ c.ty ++ (if c.primaryKey then " PRIMARY KEY" else "")

/-- Python `doc.get(orig)` (missing key yields Python `None`). -/
def docGet (doc : List (String × PyVal)) (k : String) : PyVal :=
  match doc.find? (fun p => p.1 == k) with
  | some p => p.2
  | Option.none => PyVal.none

/-- The pre-encoding truncation:
`if isinstance(value, float) and (is_timestamp_field(snake) or orig == "_creationTime"): value = int(value)`. -/
def tsAdjust (orig snake : String) (value : PyVal) : PyVal :=
  match value with
  | .float q =>
    if is_timestamp_field snake || orig == "_creationTime" then .int (pyTrunc q)
    else .float q
  | v => v

/-- The per-document loop body building `cols` and `vals`. -/
def buildInsertCols (col_map : List (String × String)) (doc : List (String × PyVal)) :
    List String × List String :=
  col_map.foldl
    (fun acc p =>
      (acc.1 ++ [p.2], acc.2 ++ [escape_value p.2 (tsAdjust p.1 p.2 (docGet doc p.1))]))
    ([], [])

def insertLine (table_name : String) (col_map : List (String × String))
    (doc : List (String × PyVal)) : String :=
  "INSERT INTO " ++ table_name ++ " (" ++ String.intercalate ", " (buildInsertCols col_map doc).1
    ++ ") VALUES (" ++ String.intercalate ", " (buildInsertCols col_map doc).2
    ++ ") ON CONFLICT (id) DO NOTHING;"

/-- The function `convert_table`: convert one Convex table directory into SQL strings. -/
def convert_table (table_name : String) (dir : TableDir) :
    Except Unit (Option TableResult) :=
  match dir.docs with
  | Option.none => .ok Option.none
  | some lines =>
    match resolvePgTypes dir.schema lines with
    | .error e => .error e
    | .ok pg_types =>
      if pg_types.isEmpty then .ok Option.none
      else
        match loadDocs lines with
        | .error e => .error e
        | .ok docs =>
          let cols := buildCols pg_types
          let schema_sql :=
            "CREATE TABLE IF NOT EXISTS " ++ table_name ++ " (\n"
              ++ String.intercalate ",\n" (cols.map renderColDef) ++ "\n);"
          let col_map := cols.map (fun c => (c.orig, c.snake))
          let data_sql := String.intercalate "\n" (docs.map (insertLine table_name col_map))
          .ok (some ⟨table_name, schema_sql, data_sql, docs.length⟩)

/-! ### Export traversal (`convert_export`) -/

/-- Code-point comparison of strings, as Python compares `Path` names. -/
def charListLt : List Char → List Char → Bool
  | [], [] => false
  | [], _ :: _ => true
  | _ :: _, [] => false
  | a :: as, b :: bs => a < b || (a = b && charListLt as bs)

def insertSorted (x : String × α) : List (String × α) → List (String × α)
  | [] => [x]
  | y :: ys => if charListLt y.1.data x.1.data then y :: insertSorted x ys else x :: y :: ys

/-- Python `sorted(...)` over directory entries keyed by name (stable insertion
sort, as Python's sort is stable). -/
def sortByName : List (String × α) → List (String × α)
  | [] => []
  | x :: xs => insertSorted x (sortByName xs)

/-- Python `name.startswith(("_", "."))`. -/
def skipName (name : String) : Bool :=
  match name.data with
  | [] => false
  | c :: _ => c = '_' || c = '.'

/-- An export root: the root-level table directory entries, and the optional
`_components` directory with its component subdirectories (non-directory
entries, filtered out by `is_dir()`, are not modelled). -/
structure ExportDir where
  tables : List (String × TableDir)
  components : Option (List (String × List (String × TableDir)))

def convertTables : List (String × TableDir) → Except Unit (List TableResult)
  | [] => .ok []
  | (nm, dir) :: rest =>
    if skipName nm then convertTables rest
    else
      match convert_table nm dir with
      | .error e => .error e
      | .ok r =>
        match convertTables rest with
        | .error e => .error e
        | .ok rs =>
          .ok (match r with
               | some t => t :: rs
               | Option.none => rs)

def convertComponents : List (String × List (String × TableDir)) →
    Except Unit (List TableResult)
  | [] => .ok []
  | (nm, tbls) :: rest =>
    if skipName nm then convertComponents rest
    else
      match convertTables (sortByName tbls) with
      | .error e => .error e
      | .ok rs =>
        match convertComponents rest with
        | .error e => .error e
        | .ok rs2 => .ok (rs ++ rs2)

/-- The function `convert_export`: root-level tables (sorted, skipping `_`/`.` names),
then component tables under `_components/<component>/<table>`. -/
def convert_export (e : ExportDir) : Except Unit (List TableResult) :=
  match convertTables (sortByName e.tables) with
  | .error er => .error er
  | .ok root =>
    match e.components with
    | Option.none => .ok root
    | some comps =>
      match convertComponents (sortByName comps) with
      | .error er => .error er
      | .ok crs => .ok (root ++ crs)


/-! ### Specification-side helpers used by the theorems below -/

/-- The original-name → column-name map `col_map` that `convert_table` builds
from its resolved columns. -/
def colMapOf (pg_types : List (String × String)) : List (String × String) :=
  (buildCols pg_types).map (fun c => (c.orig, c.snake))

/-- The seven column types the spec says are the only ones ever emitted. -/
def EMITTED_TYPES : List String :=
  ["BYTEA", "JSONB", "VARCHAR(50)", "BIGINT", "DOUBLE PRECISION", "BOOLEAN", "TEXT"]

def linePairs : Line → List (String × PyVal)
  | .doc d => d
  | _ => []

/-- The `(field, value)` pairs of the whole document stream, in stream order,
restricted to non-null values. -/
def nonNullPairs (lines : List Line) : List (String × PyVal) :=
  (lines.flatMap linePairs).filter (fun p => !p.2.isNone)

/-- Keep only the first occurrence of each key (`seen` accumulates the keys
already taken). -/
def firstOccur : List (String × PyVal) → List String → List (String × PyVal)
  | [], _ => []
  | p :: ps, seen =>
    if seen.any (fun x => x == p.1) then firstOccur ps seen
    else p :: firstOccur ps (p.1 :: seen)

/-- The mapping the spec describes for document-sampling inference: fields in
first-non-null-appearance order, each typed from its first non-null value. -/
def specSchema (ps : List (String × PyVal)) : List (String × String) :=
  (firstOccur ps []).map (fun p => (p.1, infer_pg_type p.1 p.2))

/-- Collapse each doubled quote back to a single quote (the inverse reading
of `escQuote`). -/
def unescQuote : List Char → List Char
  | [] => []
  | [c] => [c]
  | c :: c2 :: cs2 =>
    if c = sqCh then
      if c2 = sqCh then sqCh :: unescQuote cs2 else c :: unescQuote (c2 :: cs2)
    else c :: unescQuote (c2 :: cs2)

def charToDigit (c : Char) : Option Nat :=
  if isAsciiDigit c then some (c.toNat - 48) else Option.none

def parseGo (acc : Nat) : List Char → Option Nat
  | [] => some acc
  | c :: cs =>
    match charToDigit c with
    | some d => parseGo (acc * 10 + d) cs
    | Option.none => Option.none

def parseNatChars (l : List Char) : Option Nat :=
  if l.isEmpty then Option.none else parseGo 0 l

def parseIntChars (l : List Char) : Option Int :=
  match l with
  | [] => Option.none
  | c :: rest =>
    if c = '-' then (parseNatChars rest).map (fun m => -(m : Int))
    else (parseNatChars (c :: rest)).map (fun m => (m : Int))

/-- Reading a SQL literal back by the literal's own syntax: `TRUE`/`FALSE`
are booleans; a single-quoted body has its outer quotes stripped and each
doubled quote collapsed; anything else is read as a decimal integer. -/
def decodeLiteral (l : List Char) : Option PyVal :=
  if l = "TRUE".data then some (PyVal.bool true)
  else if l = "FALSE".data then some (PyVal.bool false)
  else
    match l with
    | [] => Option.none
    | c :: rest =>
      if c = sqCh then
        match rest.getLast? with
        | some c2 =>
          if c2 = sqCh then some (PyVal.str (String.mk (unescQuote rest.dropLast)))
          else Option.none
        | Option.none => Option.none
      else (parseIntChars l).map PyVal.int

/-! ## Helper lemmas -/

theorem pyGt_iff (a b : Rat) : pyGt a b = true ↔ b < a := by
  unfold pyGt
  rw [decide_eq_true_eq]
  constructor
  · intro h
    rw [← Rat.num_div_den b, ← Rat.num_div_den a]
    rw [div_lt_div_iff₀ (by positivity) (by positivity)]
    exact_mod_cast h
  · intro h
    rw [← Rat.num_div_den b, ← Rat.num_div_den a] at h
    rw [div_lt_div_iff₀ (by positivity) (by positivity)] at h
    exact_mod_cast h

theorem takeLowerRun_len (l : List Char) : (takeLowerRun l).2.length ≤ l.length := by
  induction l with
  | nil => simp [takeLowerRun]
  | cons c cs ih =>
    simp only [takeLowerRun]
    by_cases h : isAsciiLower c = true
    · simp only [h, if_true]
      exact Nat.le_succ_of_le ih
    · simp [h]

theorem sub1F_fuel_irrel (n : Nat) :
    ∀ (l : List Char) (f f' : Nat), l.length ≤ n → l.length ≤ f → l.length ≤ f' →
      sub1F f l = sub1F f' l := by
  induction n with
  | zero =>
    intro l f f' hn _ _
    have : l = [] := List.length_eq_zero.mp (Nat.le_zero.mp hn)
    subst this
    cases f <;> cases f' <;> rfl
  | succ n ih =>
    intro l f f' hn hf hf'
    match l with
    | [] => cases f <;> cases f' <;> rfl
    | [c] =>
      cases f with
      | zero => simp at hf
      | succ f => cases f' with
        | zero => simp at hf'
        | succ f' => rfl
    | [c, u] =>
      cases f with
      | zero => simp at hf
      | succ f => cases f' with
        | zero => simp at hf'
        | succ f' => rfl
    | c :: u :: d :: rest =>
      cases f with
      | zero => simp at hf
      | succ f =>
        cases f' with
        | zero => simp at hf'
        | succ f' =>
          simp only [List.length_cons] at hn hf hf'
          have hlen := takeLowerRun_len (d :: rest)
          simp only [List.length_cons] at hlen
          have h1 := ih (takeLowerRun (d :: rest)).2 f f'
            (by omega) (by omega) (by omega)
          have h2 := ih (u :: d :: rest) f f'
            (by simp; omega) (by simp; omega) (by simp; omega)
          simp only [sub1F]
          rw [h1, h2]

theorem sub1F_eq_sub1 (f : Nat) (l : List Char) (h : l.length ≤ f) :
    sub1F f l = sub1 l :=
  sub1F_fuel_irrel l.length l f l.length (Nat.le_refl _) h (Nat.le_refl _)

theorem sub1_cons3 (c u d : Char) (rest : List Char) :
    sub1 (c :: u :: d :: rest) =
      if c ≠ '\n' && isAsciiUpper u && isAsciiLower d then
        c :: '_' :: u :: ((takeLowerRun (d :: rest)).1 ++ sub1 (takeLowerRun (d :: rest)).2)
      else
        c :: sub1 (u :: d :: rest) := by
  show sub1F (c :: u :: d :: rest).length (c :: u :: d :: rest) = _
  have hlen := takeLowerRun_len (d :: rest)
  simp only [List.length_cons] at hlen
  simp only [List.length_cons, sub1F]
  rw [sub1F_eq_sub1 _ (takeLowerRun (d :: rest)).2 (by omega)]
  rw [sub1F_eq_sub1 _ (u :: d :: rest) (by simp)]

theorem toLowerChar_not_upper (c : Char) : isAsciiUpper (toLowerChar c) = false := by
  unfold toLowerChar
  by_cases h : isAsciiUpper c = true
  · simp only [h, if_true]
    unfold isAsciiUpper at *
    simp only [Bool.and_eq_true, decide_eq_true_eq] at h
    have hv : (c.toNat + 32).isValidChar := by
      left; omega
    have h2 : (Char.ofNat (c.toNat + 32)).toNat = c.toNat + 32 := by
      simp only [Char.ofNat, hv, dif_pos]
      rfl
    simp only [h2, Bool.and_eq_false_iff, decide_eq_false_iff_not]
    right
    omega
  · simp only [Bool.not_eq_true] at h
    simp [h]

theorem toLowerChar_id_of_not_upper (c : Char) (h : isAsciiUpper c = false) :
    toLowerChar c = c := by
  simp [toLowerChar, h]

theorem sub1F_id_of_noUpper (fuel : Nat) :
    ∀ l : List Char, (∀ c ∈ l, isAsciiUpper c = false) → sub1F fuel l = l := by
  induction fuel with
  | zero =>
    intro l _
    match l with
    | [] => rfl
    | [c] => rfl
    | [c, u] => rfl
    | c :: u :: d :: rest => rfl
  | succ f ih =>
    intro l h
    match l with
    | [] => rfl
    | [c] => rfl
    | [c, u] => rfl
    | c :: u :: d :: rest =>
      have hu : isAsciiUpper u = false := h u (by simp)
      simp only [sub1F, hu, Bool.and_false, Bool.false_and, Bool.false_eq_true, if_false]
      have := ih (u :: d :: rest) (fun x hx => h x (List.mem_cons_of_mem c hx))
      rw [this]

theorem sub1_id_of_noUpper (l : List Char) (h : ∀ c ∈ l, isAsciiUpper c = false) :
    sub1 l = l :=
  sub1F_id_of_noUpper l.length l h

theorem sub2_id_of_noUpper (l : List Char) (h : ∀ c ∈ l, isAsciiUpper c = false) :
    sub2 l = l := by
  induction l with
  | nil => rfl
  | cons c t ih =>
    match t, ih with
    | [], _ => rfl
    | u :: rest, ih =>
      have hu : isAsciiUpper u = false := h u (by simp)
      simp only [sub2, hu, Bool.and_false, Bool.false_eq_true, if_false]
      have := ih (fun x hx => h x (List.mem_cons_of_mem c hx))
      rw [this]

theorem map_toLowerChar_id (l : List Char) (h : ∀ c ∈ l, isAsciiUpper c = false) :
    l.map toLowerChar = l := by
  induction l with
  | nil => rfl
  | cons c t ih =>
    simp only [List.map_cons]
    rw [toLowerChar_id_of_not_upper c (h c (by simp)),
      ih (fun x hx => h x (List.mem_cons_of_mem c hx))]

/-! ## C1 — type inference from a float sample value -/

/-- C1 (counterexample): the claim says a float of magnitude above `1e12` is
mapped to `BIGINT`, "in particular a large negative float such as `-2e12`".
On the code, `infer_pg_type` compares the signed value (`value > 1e12`), so
`-2e12` resolves to `DOUBLE PRECISION`, not `BIGINT`. -/
theorem infer_pg_type_neg_2e12_counterexample :
    infer_pg_type "value" (PyVal.float (-2000000000000)) = "DOUBLE PRECISION" ∧
    "DOUBLE PRECISION" ≠ "BIGINT" :=
  ⟨by decide, by decide⟩

/-- C1 (amended): for a floating-point sample value `q` (a field shape not
captured by the earlier branches), `infer_pg_type` returns `BIGINT` exactly
when the signed value exceeds `1e12`, and `DOUBLE PRECISION` otherwise — the
result depends on the signed value, not on the magnitude, so `-2e12` maps to
`DOUBLE PRECISION`. -/
theorem infer_pg_type_float_signed_threshold (field_name : String) (q : Rat) :
    infer_pg_type field_name (PyVal.float q) =
      if (1e12 : Rat) < q then "BIGINT" else "DOUBLE PRECISION" := by
  have h12 : (1e12 : Rat) = (1000000000000 : Rat) := by norm_num
  rw [h12]
  by_cases h : (1000000000000 : Rat) < q
  · have hb : pyGt q 1000000000000 = true := (pyGt_iff _ _).mpr h
    simp [infer_pg_type, hb, h]
  · have hb : pyGt q 1000000000000 = false := by
      rcases Bool.eq_false_or_eq_true (pyGt q 1000000000000) with ht | hf
      · exact absurd ((pyGt_iff _ _).mp ht) h
      · exact hf
    simp [infer_pg_type, hb, h]

/-! ## C2 — timestamp-named columns are always BIGINT -/

/-- C2: in the column-building loop of `convert_table` (whose output renders
the schema-definition statement), every resolved column whose snake-case name
contains one of the timestamp substrings has column type `BIGINT`, whatever
type the declared-token lookup or sample-value inference supplied for the
field. -/
theorem buildCols_timestamp_bigint (pg_types : List (String × String)) (c : Col)
    (hc : c ∈ buildCols pg_types) (hts : is_timestamp_field c.snake = true) :
    c.ty = "BIGINT" := by
  rcases List.mem_map.mp hc with ⟨p, _, hp⟩
  subst hp
  unfold resolveCol at *
  by_cases h1 : (p.1 == "_id") = true
  · simp only [h1, if_true] at hts ⊢
    exact absurd hts (by decide)
  · simp only [Bool.not_eq_true] at h1
    by_cases h2 : (p.1 == "_creationTime") = true
    · simp [h1, h2]
    · simp only [Bool.not_eq_true] at h2
      simp only [h1, h2, Bool.false_eq_true, if_false] at hts ⊢
      simp only [hts, if_true]

/-- C2 (witness). -/
theorem buildCols_timestamp_bigint_witness :
    (⟨"loginAt", "login_at", "BIGINT", false⟩ : Col) ∈
        buildCols [("loginAt", "DOUBLE PRECISION")] ∧
      is_timestamp_field "login_at" = true ∧
      (⟨"loginAt", "login_at", "BIGINT", false⟩ : Col).ty = "BIGINT" :=
  ⟨by decide, by decide,
    buildCols_timestamp_bigint [("loginAt", "DOUBLE PRECISION")] _ (by decide) (by decide)⟩

/-! ## C4 — a malformed schema-description file is treated as absent -/

/-- C4: when reading/decoding the schema-description file fails (the
`except Exception` path, marker `some none`), `_parse_convex_schema` returns
the empty mapping and raises nothing, and `convert_table` behaves exactly as
if the file were absent — in particular the schema falls back entirely to
inference by sampling documents. -/
theorem malformed_schema_treated_as_absent (nm : String) (docs : Option (List Line)) :
    _parse_convex_schema Option.none = [] ∧
    convert_table nm ⟨docs, some Option.none⟩ = convert_table nm ⟨docs, Option.none⟩ := by
  refine ⟨rfl, ?_⟩
  cases docs <;> rfl

/-! ## C7 — `camel_to_snake` is idempotent -/

/-- C7: name normalization is idempotent — normalizing a normalized (hence
already snake_case) name returns it unchanged. -/
theorem camel_to_snake_idempotent (s : String) :
    camel_to_snake (camel_to_snake s) = camel_to_snake s := by
  unfold camel_to_snake
  have hnoup : ∀ c ∈ (sub2 (sub1 s.data)).map toLowerChar, isAsciiUpper c = false := by
    intro c hc
    rcases List.mem_map.mp hc with ⟨a, _, ha⟩
    rw [← ha]
    exact toLowerChar_not_upper a
  show String.mk ((sub2 (sub1 ((sub2 (sub1 s.data)).map toLowerChar))).map toLowerChar) = _
  rw [sub1_id_of_noUpper _ hnoup, sub2_id_of_noUpper _ hnoup, map_toLowerChar_id _ hnoup]


/-! ## C3 — the single-document scenario -/

/-- C3: converting a table directory whose `documents.jsonl` holds exactly
the claim's single document, with no schema-description file, produces the
schema-definition statement with columns
`id VARCHAR(50) PRIMARY KEY, creation_time BIGINT, user_name TEXT,
login_at BIGINT` in that order, and one insertion statement in which
`creation_time` and `login_at` are integer-truncated decimal literals and
`user_name` is the doubled-quote literal. -/
theorem convert_table_single_doc_scenario :
    convert_table "users"
        ⟨some [Line.doc
          [("_id", PyVal.str "abcd1234abcd1234abcd"),
           ("_creationTime", PyVal.float 1700000000123),
           ("userName", PyVal.str "Ann O\x27Brien"),
           ("loginAt", PyVal.float 1700000001000)]], Option.none⟩ =
      .ok (some
        ⟨"users",
         "CREATE TABLE IF NOT EXISTS users (\n  id VARCHAR(50) PRIMARY KEY,\n  creation_time BIGINT,\n  user_name TEXT,\n  login_at BIGINT\n);",
         "INSERT INTO users (id, creation_time, user_name, login_at) VALUES (\x27abcd1234abcd1234abcd\x27, 1700000000123, \x27Ann O\x27\x27Brien\x27, 1700000001000) ON CONFLICT (id) DO NOTHING;",
         1⟩) := by
  rfl

/-! ## C5 — a malformed document line is fatal to the table conversion -/

theorem inferGo_error_of_bad (lines : List Line) :
    ∀ acc, Line.bad ∈ lines → inferGo acc lines = .error () := by
  induction lines with
  | nil => intro acc h; cases h
  | cons l rest ih =>
    intro acc h
    cases l with
    | blank =>
      have : Line.bad ∈ rest := by
        rcases List.mem_cons.mp h with h1 | h1
        · cases h1
        · exact h1
      exact ih acc this
    | bad => rfl
    | doc d =>
      have : Line.bad ∈ rest := by
        rcases List.mem_cons.mp h with h1 | h1
        · cases h1
        · exact h1
      exact ih (inferDoc acc d) this

theorem loadDocs_error_of_bad (lines : List Line) (h : Line.bad ∈ lines) :
    loadDocs lines = .error () := by
  induction lines with
  | nil => cases h
  | cons l rest ih =>
    cases l with
    | blank =>
      have : Line.bad ∈ rest := by
        rcases List.mem_cons.mp h with h1 | h1
        · cases h1
        · exact h1
      exact ih this
    | bad => rfl
    | doc d =>
      have hrest : Line.bad ∈ rest := by
        rcases List.mem_cons.mp h with h1 | h1
        · cases h1
        · exact h1
      simp only [loadDocs, ih hrest]

theorem convert_table_error_of_bad (nm : String) (sch : Option (Option String))
    (lines : List Line) (h : Line.bad ∈ lines) :
    convert_table nm ⟨some lines, sch⟩ = .error () := by
  have hload := loadDocs_error_of_bad lines h
  have hinfer := inferGo_error_of_bad lines [] h
  unfold convert_table
  cases hres : resolvePgTypes sch lines with
  | error e =>
    simp only [hres]
  | ok pg_types =>
    simp only [hres]
    by_cases hemp : pg_types.isEmpty = true
    · exfalso
      unfold resolvePgTypes at hres
      by_cases h1 : (match sch with
          | some decoded => _parse_convex_schema decoded
          | Option.none => []).isEmpty = true
      · rw [if_pos h1] at hres
        unfold _infer_schema_from_docs at hres
        rw [hinfer] at hres
        cases hres
      · rw [if_neg h1] at hres
        injection hres with hres2
        rw [← hres2] at hemp
        exact h1 hemp
    · simp only [Bool.not_eq_true] at hemp
      simp only [hemp, Bool.false_eq_true, if_false, hload]

theorem mem_insertSorted {α : Type} (x y : String × α) (l : List (String × α)) :
    x ∈ insertSorted y l ↔ x = y ∨ x ∈ l := by
  induction l with
  | nil => simp [insertSorted]
  | cons z zs ih =>
    simp only [insertSorted]
    by_cases h : charListLt z.1.data y.1.data = true
    · simp only [h, if_true, List.mem_cons, ih]
      try tauto
    · simp only [h, Bool.false_eq_true, if_false, List.mem_cons]
      try tauto

theorem mem_sortByName {α : Type} (x : String × α) (l : List (String × α)) :
    x ∈ sortByName l ↔ x ∈ l := by
  induction l with
  | nil => simp [sortByName]
  | cons z zs ih =>
    simp only [sortByName, mem_insertSorted, List.mem_cons, ih]

theorem convertTables_error_of_mem (entries : List (String × TableDir))
    (nm : String) (dir : TableDir) (hmem : (nm, dir) ∈ entries)
    (hskip : skipName nm = false) (herr : convert_table nm dir = .error ()) :
    convertTables entries = .error () := by
  induction entries with
  | nil => cases hmem
  | cons e rest ih =>
    obtain ⟨nm2, dir2⟩ := e
    rcases List.mem_cons.mp hmem with h1 | h1
    · injection h1 with h2 h3
      subst h2; subst h3
      simp only [convertTables, hskip, Bool.false_eq_true, if_false, herr]
    · simp only [convertTables]
      by_cases hs : skipName nm2 = true
      · simp only [hs, if_true]
        exact ih h1
      · simp only [Bool.not_eq_true] at hs
        simp only [hs, Bool.false_eq_true, if_false]
        rw [ih h1]
        cases hct : convert_table nm2 dir2 <;> rfl

/-- C5: a non-blank document line whose JSON parse fails makes the whole
table conversion raise (whichever path reads it: schema inference or the
document-loading loop); the Export Walker does not catch the error, so
`convert_export` raises too; blank lines, by contrast, are simply skipped. -/
theorem malformed_doc_line_fatal (nm : String) (sch : Option (Option String))
    (lines : List Line) (e : ExportDir) (dirname : String) (dir : TableDir)
    (lines' : List Line) (hbad : Line.bad ∈ lines)
    (hmem : (dirname, dir) ∈ e.tables) (hskip : skipName dirname = false)
    (hdocs : dir.docs = some lines) :
    convert_table nm ⟨some lines, sch⟩ = .error () ∧
    convert_export e = .error () ∧
    convert_table nm ⟨some (Line.blank :: lines'), sch⟩ =
      convert_table nm ⟨some lines', sch⟩ := by
  refine ⟨convert_table_error_of_bad nm sch lines hbad, ?_, rfl⟩
  have herr : convert_table dirname dir = .error () := by
    obtain ⟨ddocs, dsch⟩ := dir
    simp only at hdocs
    subst hdocs
    exact convert_table_error_of_bad dirname dsch lines hbad
  have hroot : convertTables (sortByName e.tables) = .error () :=
    convertTables_error_of_mem _ dirname dir ((mem_sortByName _ _).mpr hmem) hskip herr
  unfold convert_export
  rw [hroot]

/-- C5 (witness). -/
theorem malformed_doc_line_fatal_witness :
    convert_table "events" ⟨some [Line.bad], Option.none⟩ = .error () ∧
    convert_export ⟨[("events", ⟨some [Line.bad], Option.none⟩)], Option.none⟩ = .error () ∧
    convert_table "events" ⟨some (Line.blank :: [Line.blank]), Option.none⟩ =
      convert_table "events" ⟨some [Line.blank], Option.none⟩ :=
  malformed_doc_line_fatal "events" Option.none [Line.bad]
    ⟨[("events", ⟨some [Line.bad], Option.none⟩)], Option.none⟩ "events"
    ⟨some [Line.bad], Option.none⟩ [Line.blank]
    (List.Mem.head _) (List.Mem.head _) (by decide) rfl


/-! ## C6 — document-sampling inference: first non-null occurrence wins -/

theorem inferDoc_append (d : List (String × PyVal)) :
    ∀ (acc : List (String × String)) (d' : List (String × PyVal)),
      inferDoc (inferDoc acc d) d' = inferDoc acc (d ++ d') := by
  induction d with
  | nil => intro acc d'; rfl
  | cons p ps ih =>
    intro acc d'
    obtain ⟨k, v⟩ := p
    simp only [inferDoc, List.cons_append]
    exact ih _ d'

theorem inferGo_ok (lines : List Line) :
    ∀ (acc res : List (String × String)), inferGo acc lines = .ok res →
      res = inferDoc acc (lines.flatMap linePairs) := by
  induction lines with
  | nil =>
    intro acc res h
    injection h with h
    simp [h, inferDoc]
  | cons l rest ih =>
    intro acc res h
    cases l with
    | blank =>
      have := ih acc res h
      simpa [linePairs] using this
    | bad => exact Except.noConfusion h
    | doc d =>
      have := ih (inferDoc acc d) res h
      rw [this]
      simp only [List.flatMap_cons, linePairs]
      exact inferDoc_append d acc _

theorem firstOccur_seen_congr (ps : List (String × PyVal)) :
    ∀ seen1 seen2 : List String,
      (∀ a, seen1.any (fun x => x == a) = seen2.any (fun x => x == a)) →
      firstOccur ps seen1 = firstOccur ps seen2 := by
  induction ps with
  | nil => intro seen1 seen2 _; rfl
  | cons p ps ih =>
    intro seen1 seen2 hcong
    simp only [firstOccur, hcong p.1]
    by_cases h : seen2.any (fun x => x == p.1) = true
    · simp only [h, if_true]
      exact ih seen1 seen2 hcong
    · simp only [Bool.not_eq_true] at h
      simp only [h, Bool.false_eq_true, if_false]
      rw [ih (p.1 :: seen1) (p.1 :: seen2) (fun a => by
        simp only [List.any_cons, hcong a])]

theorem inferDoc_spec (ps : List (String × PyVal)) :
    ∀ acc : List (String × String),
      inferDoc acc ps =
        acc ++ (firstOccur (ps.filter (fun p => !p.2.isNone)) (acc.map Prod.fst)).map
          (fun p => (p.1, infer_pg_type p.1 p.2)) := by
  induction ps with
  | nil => intro acc; simp [inferDoc, firstOccur]
  | cons p ps ih =>
    intro acc
    obtain ⟨k, v⟩ := p
    by_cases hv : v.isNone = true
    · simp only [inferDoc, hv, Bool.or_true, if_true, List.filter_cons, Bool.not_true,
        Bool.false_eq_true, if_false]
      exact ih acc
    · simp only [Bool.not_eq_true] at hv
      have hfilter : ((k, v) :: ps).filter (fun p => !p.2.isNone) =
          (k, v) :: ps.filter (fun p => !p.2.isNone) := by
        simp [List.filter_cons, hv]
      rw [hfilter]
      have hmapany : (acc.map Prod.fst).any (fun x => x == k) =
          acc.any (fun p => p.1 == k) := by
        induction acc with
        | nil => rfl
        | cons q qs ihq => simp only [List.map_cons, List.any_cons, ihq]
      by_cases hk : acc.any (fun p => p.1 == k) = true
      · simp only [inferDoc, hk, hv, Bool.true_or, if_true, firstOccur, hmapany]
        exact ih acc
      · simp only [Bool.not_eq_true] at hk
        simp only [inferDoc, hk, hv, Bool.or_self, Bool.false_eq_true, if_false,
          firstOccur, hmapany]
        rw [ih (acc ++ [(k, infer_pg_type k v)])]
        rw [show (acc ++ [(k, infer_pg_type k v)]).map Prod.fst =
            acc.map Prod.fst ++ [k] by simp]
        rw [firstOccur_seen_congr _ (acc.map Prod.fst ++ [k]) (k :: acc.map Prod.fst)
          (fun a => by
            simp only [List.any_append, List.any_cons, List.any_nil, Bool.or_false]
            exact Bool.or_comm _ _)]
        simp [List.append_assoc]

/-- C6: whenever the document-sampling fallback succeeds (no malformed line),
the resulting mapping is exactly `specSchema (nonNullPairs lines)`: the field
order is the first-appearance order of fields with a non-null value across
the stream, each field's type is inferred from its first non-null occurrence
(later documents never change it), and fields that are null in every document
never enter the mapping. -/
theorem infer_schema_first_non_null (lines : List Line) (res : List (String × String))
    (h : _infer_schema_from_docs lines = .ok res) :
    res = specSchema (nonNullPairs lines) := by
  have h2 := inferGo_ok lines [] res h
  rw [h2, inferDoc_spec]
  simp [specSchema, nonNullPairs]

/-- C6 (witness): three documents; `a` is null first and typed from its later
string occurrence, `b` is typed from the first document, `c` is null in the
second document and typed from the third. -/
theorem infer_schema_first_non_null_witness :
    _infer_schema_from_docs
        [Line.doc [("a", PyVal.none), ("b", PyVal.int 1)],
         Line.doc [("a", PyVal.str "x"), ("b", PyVal.bool true), ("c", PyVal.none)],
         Line.doc [("c", PyVal.float 5)]] =
      .ok [("b", "BIGINT"), ("a", "TEXT"), ("c", "DOUBLE PRECISION")] ∧
    [("b", "BIGINT"), ("a", "TEXT"), ("c", "DOUBLE PRECISION")] =
      specSchema (nonNullPairs
        [Line.doc [("a", PyVal.none), ("b", PyVal.int 1)],
         Line.doc [("a", PyVal.str "x"), ("b", PyVal.bool true), ("c", PyVal.none)],
         Line.doc [("c", PyVal.float 5)]]) :=
  ⟨rfl, infer_schema_first_non_null _ _ rfl⟩


/-! ## C8 — literal encoding round-trips for booleans, integers and strings -/

theorem digitCh_toNat (n : Nat) (h : n < 10) : (digitCh n).toNat = 48 + n := by
  have hv : (48 + n).isValidChar := by left; omega
  simp only [digitCh, Char.ofNat, hv, dif_pos]
  rfl

theorem isAsciiDigit_digitCh (n : Nat) (h : n < 10) : isAsciiDigit (digitCh n) = true := by
  simp only [isAsciiDigit, digitCh_toNat n h, Bool.and_eq_true, decide_eq_true_eq]
  omega

theorem charToDigit_digitCh (n : Nat) (h : n < 10) : charToDigit (digitCh n) = some n := by
  simp only [charToDigit, isAsciiDigit_digitCh n h, if_true, digitCh_toNat n h]
  congr 1
  omega

theorem parseGo_append (xs : List Char) :
    ∀ (acc : Nat) (ys : List Char),
      parseGo acc (xs ++ ys) = (parseGo acc xs).bind (fun a => parseGo a ys) := by
  induction xs with
  | nil => intro acc ys; rfl
  | cons c cs ih =>
    intro acc ys
    simp only [List.cons_append, parseGo]
    cases charToDigit c with
    | none => rfl
    | some d => exact ih _ ys

theorem natToCharsAux_ne_nil (fuel n : Nat) (h : n < fuel) : natToCharsAux fuel n ≠ [] := by
  cases fuel with
  | zero => omega
  | succ f =>
    simp only [natToCharsAux]
    by_cases hn : n < 10
    · simp [hn]
    · simp [hn]

theorem parseGo_natToCharsAux :
    ∀ (fuel n acc : Nat), n < fuel →
      parseGo acc (natToCharsAux fuel n) =
        some (acc * 10 ^ (natToCharsAux fuel n).length + n) := by
  intro fuel
  induction fuel with
  | zero => intro n acc h; omega
  | succ f ih =>
    intro n acc h
    by_cases hn : n < 10
    · simp only [natToCharsAux, hn, if_true, parseGo, charToDigit_digitCh n hn,
        List.length_cons, List.length_nil, pow_one, zero_add, pow_zero, mul_one]
    · simp only [natToCharsAux, hn, if_false]
      have hdiv : n / 10 < f := by omega
      rw [parseGo_append]
      rw [ih (n / 10) acc hdiv]
      simp only [Option.some_bind, parseGo, charToDigit_digitCh (n % 10) (by omega)]
      simp only [List.length_append, List.length_cons, List.length_nil, pow_succ]
      congr 1
      have hm : 10 * (n / 10) + n % 10 = n := Nat.div_add_mod n 10
      set L := (natToCharsAux f (n / 10)).length
      calc (acc * 10 ^ L + n / 10) * 10 + n % 10
          = acc * (10 ^ L * 10) + (10 * (n / 10) + n % 10) := by ring
        _ = acc * (10 ^ L * 10) + n := by rw [hm]

theorem parseNatChars_natToChars (n : Nat) : parseNatChars (natToChars n) = some n := by
  unfold parseNatChars natToChars
  have hne := natToCharsAux_ne_nil (n + 1) n (by omega)
  have hp := parseGo_natToCharsAux (n + 1) n 0 (by omega)
  simp only [List.isEmpty_eq_true, hne, if_false]
  rw [hp]
  simp

theorem natToCharsAux_head_digit :
    ∀ (fuel n : Nat), n < fuel →
      ∃ c t, natToCharsAux fuel n = c :: t ∧ isAsciiDigit c = true := by
  intro fuel
  induction fuel with
  | zero => intro n h; omega
  | succ f ih =>
    intro n h
    by_cases hn : n < 10
    · exact ⟨digitCh n, [], by simp [natToCharsAux, hn], isAsciiDigit_digitCh n hn⟩
    · have hdiv : n / 10 < f := by omega
      obtain ⟨c, t, heq, hc⟩ := ih (n / 10) hdiv
      refine ⟨c, t ++ [digitCh (n % 10)], ?_, hc⟩
      simp [natToCharsAux, hn, heq]

theorem intToChars_shape (n : Int) :
    ∃ c t, intToChars n = c :: t ∧ (c = '-' ∨ isAsciiDigit c = true) := by
  unfold intToChars
  by_cases h : n < 0
  · exact ⟨'-', natToChars n.natAbs, by simp [h], Or.inl rfl⟩
  · obtain ⟨c, t, heq, hc⟩ := natToCharsAux_head_digit (n.toNat + 1) n.toNat (by omega)
    exact ⟨c, t, by simp [h, natToChars, heq], Or.inr hc⟩

theorem parseIntChars_intToChars (n : Int) : parseIntChars (intToChars n) = some n := by
  by_cases h : n < 0
  · have h0 : intToChars n = '-' :: natToChars n.natAbs := by simp [intToChars, h]
    rw [h0]
    simp only [parseIntChars, if_pos rfl, parseNatChars_natToChars]
    show some (-((n.natAbs : Nat) : Int)) = some n
    congr 1
    cases n with
    | ofNat m => exact absurd h (not_lt.mpr (Int.ofNat_zero_le m))
    | negSucc m =>
      show -(((m + 1 : Nat) : Int)) = Int.negSucc m
      rw [Int.negSucc_eq]
      push_cast
      ring
  · have hform : intToChars n = natToChars n.toNat := by simp [intToChars, h]
    obtain ⟨c, t, heq, hc⟩ := natToCharsAux_head_digit (n.toNat + 1) n.toNat (by omega)
    have heq2 : natToChars n.toNat = c :: t := heq
    have hcne : ¬(c = '-') := by
      intro hh
      rw [hh] at hc
      exact absurd hc (by decide)
    rw [hform, heq2]
    simp only [parseIntChars, hcne, if_false]
    rw [← heq2, parseNatChars_natToChars]
    show some ((n.toNat : Int)) = some n
    rw [Int.toNat_of_nonneg (by omega)]

theorem unescQuote_escQuote (l : List Char) : unescQuote (escQuote l) = l := by
  induction l with
  | nil => rfl
  | cons c cs ih =>
    by_cases hc : c = sqCh
    · subst hc
      simp only [escQuote, if_pos rfl]
      show unescQuote (sqCh :: sqCh :: escQuote cs) = sqCh :: cs
      simp [unescQuote, ih]
    · simp only [escQuote, hc, if_false]
      cases hcs : escQuote cs with
      | nil =>
        have : cs = [] := by
          cases cs with
          | nil => rfl
          | cons x xs =>
            simp only [escQuote] at hcs
            by_cases hx : x = sqCh <;> simp [hx] at hcs
        subst this
        simp [unescQuote]
      | cons e es =>
        simp only [unescQuote, hc, if_false]
        rw [← hcs, ih]

/-- C8: encoding a boolean, an integer, or a string (single quotes included)
with `escape_value` and reading the literal back by its own syntax
(`TRUE`/`FALSE` → boolean, decimal digits → integer, stripping the outer
quotes and collapsing each doubled quote) returns the original value. -/
theorem escape_value_round_trip (snake_name : String) (v : PyVal)
    (h : (∃ b, v = PyVal.bool b) ∨ (∃ n, v = PyVal.int n) ∨ (∃ s, v = PyVal.str s)) :
    decodeLiteral (escape_value snake_name v).data = some v := by
  rcases h with ⟨b, rfl⟩ | ⟨n, rfl⟩ | ⟨s, rfl⟩
  · cases b <;> rfl
  · show decodeLiteral (intToChars n) = some (PyVal.int n)
    obtain ⟨c, t, heq, hc⟩ := intToChars_shape n
    have hbound : c.toNat = 45 ∨ (48 ≤ c.toNat ∧ c.toNat ≤ 57) := by
      rcases hc with h1 | h1
      · left; rw [h1]; rfl
      · right
        simp only [isAsciiDigit, Bool.and_eq_true, decide_eq_true_eq] at h1
        exact h1
    have hne1 : intToChars n ≠ "TRUE".data := by
      rw [heq]
      intro hh
      injection hh with h1 _
      have : c.toNat = 84 := by rw [h1]; rfl
      omega
    have hne2 : intToChars n ≠ "FALSE".data := by
      rw [heq]
      intro hh
      injection hh with h1 _
      have : c.toNat = 70 := by rw [h1]; rfl
      omega
    have hcsq : ¬(c = sqCh) := by
      intro hh
      have : c.toNat = 39 := by rw [hh]; rfl
      omega
    unfold decodeLiteral
    rw [if_neg hne1, if_neg hne2, heq]
    simp only [hcsq, if_false]
    rw [← heq, parseIntChars_intToChars]
    rfl
  · show decodeLiteral (sqCh :: (escQuote s.data ++ [sqCh])) = some (PyVal.str s)
    have hne1 : sqCh :: (escQuote s.data ++ [sqCh]) ≠ "TRUE".data := by
      intro hh
      injection hh with h1 _
      exact absurd h1 (by decide)
    have hne2 : sqCh :: (escQuote s.data ++ [sqCh]) ≠ "FALSE".data := by
      intro hh
      injection hh with h1 _
      exact absurd h1 (by decide)
    unfold decodeLiteral
    rw [if_neg hne1, if_neg hne2]
    simp only [if_pos rfl, List.getLast?_concat, List.dropLast_concat,
      unescQuote_escQuote]
    simp

/-- C8 (witness). -/
theorem escape_value_round_trip_witness :
    decodeLiteral (escape_value "user_name" (PyVal.str "Ann O\x27Brien")).data =
      some (PyVal.str "Ann O\x27Brien") :=
  escape_value_round_trip "user_name" (PyVal.str "Ann O\x27Brien")
    (Or.inr (Or.inr ⟨_, rfl⟩))


/-! ## C9 — only seven column types are ever emitted -/

theorem infer_pg_type_mem (nm : String) (v : PyVal) :
    infer_pg_type nm v ∈ EMITTED_TYPES := by
  cases v <;> simp only [infer_pg_type] <;> first | decide | (split <;> decide)

theorem CONVEX_TYPE_MAP_values : ∀ p ∈ CONVEX_TYPE_MAP, p.2 ∈ EMITTED_TYPES := by
  decide

theorem mapGetD_types (k dflt : String) (hd : dflt ∈ EMITTED_TYPES) :
    mapGetD CONVEX_TYPE_MAP k dflt ∈ EMITTED_TYPES := by
  unfold mapGetD
  cases hf : CONVEX_TYPE_MAP.find? (fun p => p.1 == k) with
  | none => exact hd
  | some p => exact CONVEX_TYPE_MAP_values p (List.mem_of_find?_eq_some hf)

theorem resolveSchemaVal_mem (t : SchemaTok) : resolveSchemaVal t ∈ EMITTED_TYPES := by
  cases t with
  | token w => exact mapGetD_types (String.mk w) "TEXT" (by decide)
  | quoted v =>
    show (if (!v.isEmpty && is_convex_id (String.mk v)) = true then "VARCHAR(50)" else "TEXT")
        ∈ EMITTED_TYPES
    split <;> decide

theorem dictInsert_types (m : List (String × String)) (k v : String)
    (hm : ∀ p ∈ m, p.2 ∈ EMITTED_TYPES) (hv : v ∈ EMITTED_TYPES) :
    ∀ p ∈ dictInsert m k v, p.2 ∈ EMITTED_TYPES := by
  intro p hp
  unfold dictInsert at hp
  by_cases ha : m.any (fun q => q.1 == k) = true
  · rw [if_pos ha] at hp
    rcases List.mem_map.mp hp with ⟨q, hq, hqe⟩
    by_cases hqk : (q.1 == k) = true
    · rw [if_pos hqk] at hqe
      rw [← hqe]
      exact hv
    · rw [if_neg hqk] at hqe
      rw [← hqe]
      exact hm q hq
  · rw [if_neg ha] at hp
    rcases List.mem_append.mp hp with h1 | h1
    · exact hm p h1
    · rcases List.mem_singleton.mp h1 with rfl
      exact hv

theorem foldl_dictInsert_types (pairs : List (List Char × SchemaTok)) :
    ∀ acc : List (String × String), (∀ p ∈ acc, p.2 ∈ EMITTED_TYPES) →
      ∀ p ∈ pairs.foldl
        (fun fields pr => dictInsert fields (String.mk pr.1) (resolveSchemaVal pr.2)) acc,
        p.2 ∈ EMITTED_TYPES := by
  induction pairs with
  | nil => intro acc hacc; exact hacc
  | cons pr prs ih =>
    intro acc hacc
    exact ih _ (dictInsert_types acc _ _ hacc (resolveSchemaVal_mem pr.2))

theorem parse_schema_types (decoded : Option String) :
    ∀ p ∈ _parse_convex_schema decoded, p.2 ∈ EMITTED_TYPES := by
  cases decoded with
  | none => intro p hp; cases hp
  | some inner => exact foldl_dictInsert_types (findPairs inner.data) [] (by intro p hp; cases hp)

theorem inferDoc_types (d : List (String × PyVal)) :
    ∀ acc : List (String × String), (∀ p ∈ acc, p.2 ∈ EMITTED_TYPES) →
      ∀ p ∈ inferDoc acc d, p.2 ∈ EMITTED_TYPES := by
  induction d with
  | nil => intro acc hacc; exact hacc
  | cons kv items ih =>
    intro acc hacc
    obtain ⟨k, v⟩ := kv
    simp only [inferDoc]
    apply ih
    by_cases hcond : (acc.any (fun p => p.1 == k) || v.isNone) = true
    · rw [if_pos hcond]
      exact hacc
    · rw [if_neg hcond]
      intro p hp
      rcases List.mem_append.mp hp with h1 | h1
      · exact hacc p h1
      · rcases List.mem_singleton.mp h1 with rfl
        exact infer_pg_type_mem k v

theorem inferGo_types (lines : List Line) :
    ∀ (acc res : List (String × String)), inferGo acc lines = .ok res →
      (∀ p ∈ acc, p.2 ∈ EMITTED_TYPES) → ∀ p ∈ res, p.2 ∈ EMITTED_TYPES := by
  induction lines with
  | nil =>
    intro acc res h hacc
    injection h with h
    rw [← h]
    exact hacc
  | cons l rest ih =>
    intro acc res h hacc
    cases l with
    | blank => exact ih acc res h hacc
    | bad => exact Except.noConfusion h
    | doc d => exact ih (inferDoc acc d) res h (inferDoc_types d acc hacc)

theorem resolvePgTypes_types (sch : Option (Option String)) (lines : List Line)
    (pg_types : List (String × String)) (h : resolvePgTypes sch lines = .ok pg_types) :
    ∀ p ∈ pg_types, p.2 ∈ EMITTED_TYPES := by
  unfold resolvePgTypes at h
  by_cases he : (match sch with
      | some decoded => _parse_convex_schema decoded
      | Option.none => []).isEmpty = true
  · rw [if_pos he] at h
    exact inferGo_types lines [] pg_types h (by intro p hp; cases hp)
  · rw [if_neg he] at h
    injection h with h2
    rw [← h2]
    cases sch with
    | none => intro p hp; cases hp
    | some decoded => exact parse_schema_types decoded

/-- C9: whichever way a table's types are resolved (declared-token lookup,
quoted-example classification, or sample-value inference), every column type
of the columns `convert_table` builds — and from which it renders the
schema-definition statement — is one of the seven types `BYTEA`, `JSONB`,
`VARCHAR(50)`, `BIGINT`, `DOUBLE PRECISION`, `BOOLEAN`, `TEXT`; this covers
the `_id` / `_creationTime` special cases and the timestamp-name override. -/
theorem emitted_column_types (sch : Option (Option String)) (lines : List Line)
    (pg_types : List (String × String)) (h : resolvePgTypes sch lines = .ok pg_types)
    (c : Col) (hc : c ∈ buildCols pg_types) : c.ty ∈ EMITTED_TYPES := by
  rcases List.mem_map.mp hc with ⟨p, hp, rfl⟩
  have hpt := resolvePgTypes_types sch lines pg_types h p hp
  unfold resolveCol
  by_cases h1 : (p.1 == "_id") = true
  · simp only [h1, if_true]
    decide
  · rw [if_neg h1]
    by_cases h2 : (p.1 == "_creationTime") = true
    · simp only [h2, if_true]
      decide
    · rw [if_neg h2]
      by_cases h3 : is_timestamp_field (camel_to_snake p.1) = true
      · simp only [h3, if_true]
        decide
      · simp only [Bool.not_eq_true] at h3
        simp only [h3, Bool.false_eq_true, if_false]
        exact hpt

/-- C9 (witness). -/
theorem emitted_column_types_witness :
    resolvePgTypes Option.none [Line.doc [("x", PyVal.bool true)]] = .ok [("x", "BOOLEAN")] ∧
    (⟨"x", "x", "BOOLEAN", false⟩ : Col) ∈ buildCols [("x", "BOOLEAN")] ∧
    (⟨"x", "x", "BOOLEAN", false⟩ : Col).ty ∈ EMITTED_TYPES :=
  ⟨rfl, by decide,
    emitted_column_types Option.none [Line.doc [("x", PyVal.bool true)]]
      [("x", "BOOLEAN")] rfl _ (by decide)⟩

/-! ## C10 — shape of every emitted insertion statement -/

theorem buildInsertCols_eq (col_map : List (String × String))
    (doc : List (String × PyVal)) :
    buildInsertCols col_map doc =
      (col_map.map (fun p => p.2),
       col_map.map (fun p => escape_value p.2 (tsAdjust p.1 p.2 (docGet doc p.1)))) := by
  suffices h : ∀ (cm : List (String × String)) (a b : List String),
      cm.foldl
        (fun acc p =>
          (acc.1 ++ [p.2], acc.2 ++ [escape_value p.2 (tsAdjust p.1 p.2 (docGet doc p.1))]))
        (a, b) =
        (a ++ cm.map (fun p => p.2),
         b ++ cm.map (fun p => escape_value p.2 (tsAdjust p.1 p.2 (docGet doc p.1)))) by
    have h2 := h col_map [] []
    simpa [buildInsertCols] using h2
  intro cm
  induction cm with
  | nil => intro a b; simp
  | cons p ps ih =>
    intro a b
    simp only [List.foldl_cons, List.map_cons]
    rw [ih]
    simp

/-- C10: every data-insertion statement `convert_table` emits lists exactly
the resolved schema's snake-case columns, in resolution order, identically
for every document; a field absent from a document is encoded as `NULL`;
document fields outside the resolved schema cannot affect the statement; and
every statement unconditionally ends with `ON CONFLICT (id) DO NOTHING;` —
nothing requires an `_id` field (the witness uses a schema with no `id`
column at all). -/
theorem insert_statement_shape (nm : String) (dir : TableDir) (r : TableResult)
    (lines : List Line) (pg_types : List (String × String))
    (docs : List (List (String × PyVal)))
    (hdocs : dir.docs = some lines)
    (hres : resolvePgTypes dir.schema lines = .ok pg_types)
    (hload : loadDocs lines = .ok docs)
    (h : convert_table nm dir = .ok (some r)) :
    r.data_sql = String.intercalate "\n" (docs.map (insertLine nm (colMapOf pg_types))) ∧
    (∀ doc, insertLine nm (colMapOf pg_types) doc =
      "INSERT INTO " ++ nm ++ " ("
        ++ String.intercalate ", " ((colMapOf pg_types).map (fun p => p.2))
        ++ ") VALUES ("
        ++ String.intercalate ", "
          ((colMapOf pg_types).map
            (fun p => escape_value p.2 (tsAdjust p.1 p.2 (docGet doc p.1))))
        ++ ") ON CONFLICT (id) DO NOTHING;") ∧
    (∀ doc p, p ∈ colMapOf pg_types → docGet doc p.1 = PyVal.none →
      escape_value p.2 (tsAdjust p.1 p.2 (docGet doc p.1)) = "NULL") ∧
    (∀ d1 d2, (∀ p ∈ colMapOf pg_types, docGet d1 p.1 = docGet d2 p.1) →
      insertLine nm (colMapOf pg_types) d1 = insertLine nm (colMapOf pg_types) d2) := by
  refine ⟨?_, ?_, ?_, ?_⟩
  · unfold convert_table at h
    simp only [hdocs] at h
    simp only [hres] at h
    by_cases hemp : pg_types.isEmpty = true
    · rw [if_pos hemp] at h
      exact Option.noConfusion (Except.ok.inj h)
    · rw [if_neg hemp] at h
      simp only [hload] at h
      have h2 := Except.ok.inj h
      have h3 := Option.some.inj h2
      rw [← h3]
      rfl
  · intro doc
    simp [insertLine, buildInsertCols_eq, colMapOf]
  · intro doc p _ hnone
    rw [hnone]
    rfl
  · intro d1 d2 hagree
    have hmap : ((colMapOf pg_types).map
          (fun p => escape_value p.2 (tsAdjust p.1 p.2 (docGet d1 p.1)))) =
        ((colMapOf pg_types).map
          (fun p => escape_value p.2 (tsAdjust p.1 p.2 (docGet d2 p.1)))) :=
      List.map_congr_left (fun p hp => by rw [hagree p hp])
    simp [insertLine, buildInsertCols_eq, hmap]

/-- C10 (witness): a table with no `_id` field still gets the conflict
clause. -/
theorem insert_statement_shape_witness :
    (⟨"t", "CREATE TABLE IF NOT EXISTS t (\n  a BIGINT\n);",
        "INSERT INTO t (a) VALUES (1) ON CONFLICT (id) DO NOTHING;", 1⟩ :
      TableResult).data_sql =
      String.intercalate "\n"
        ([[("a", PyVal.int 1)]].map (insertLine "t" (colMapOf [("a", "BIGINT")]))) :=
  (insert_statement_shape "t" ⟨some [Line.doc [("a", PyVal.int 1)]], Option.none⟩
    ⟨"t", "CREATE TABLE IF NOT EXISTS t (\n  a BIGINT\n);",
      "INSERT INTO t (a) VALUES (1) ON CONFLICT (id) DO NOTHING;", 1⟩
    [Line.doc [("a", PyVal.int 1)]] [("a", "BIGINT")] [[("a", PyVal.int 1)]]
    rfl rfl rfl rfl).1

end ConvexToPg
